import Mathlib

/-!
Verification of the P2P-Client secure transfer core against its
natural-language specification.

The Go sources are shallowly embedded: byte streams are `List Nat`,
stateful readers are functions consuming a list and returning the value
together with the unread remainder, and external cryptographic or codec
libraries (AES-GCM via crypto/cipher, RSA-OAEP via crypto/rsa, JSON via
encoding/json, bcrypt via golang.org/x/crypto) are parameters bundled in
structures whose proof fields state exactly the library contracts that the
repository code relies on.  Concrete executable instances of each structure
are provided so that every theorem can be exercised on concrete inputs.
-/

/-- Big-endian 32-bit encoding, as produced by binary.Write with
binary.BigEndian on a uint32 (the value is reduced mod 2^32 exactly as the
Go uint32 conversion does). -/
def u32be (x : Nat) : List Nat :=
  [x % 2^32 / 2^24, x % 2^32 / 2^16 % 256, x % 2^32 / 2^8 % 256, x % 2^32 % 256]

/-- Big-endian 32-bit decoding, as performed by binary.Read with
binary.BigEndian into a uint32: consumes four bytes of the stream, errors
(None) on a short stream. -/
def readU32 : List Nat → Option (Nat × List Nat)
  | b0 :: b1 :: b2 :: b3 :: rest =>
      some (((b0 * 256 + b1) * 256 + b2) * 256 + b3, rest)
  | _ => none

/-- Model of io.ReadFull: read exactly n bytes or fail on a short stream. -/
def readExact (n : Nat) (s : List Nat) : Option (List Nat × List Nat) :=
  if n ≤ s.length then some (s.take n, s.drop n) else none

/-- Embedding of util.SendWithLength: emit a 4-byte big-endian length
followed by the payload. -/
def SendWithLength (data : List Nat) : List Nat :=
  u32be data.length ++ data

/-- Embedding of util.ReadWithLength: read a 4-byte big-endian length L and
then exactly L bytes.  The Go function performs no bound check whatsoever on
L: it allocates an L-byte buffer and calls io.ReadFull. -/
def ReadWithLength (s : List Nat) : Option (List Nat × List Nat) :=
  match readU32 s with
  | none => none
  | some (len, rest) => readExact len rest

theorem readU32_u32be (x : Nat) (rest : List Nat) :
    readU32 (u32be x ++ rest) = some (x % 2^32, rest) := by
  simp only [u32be, List.cons_append, List.nil_append, readU32]
  congr 1
  congr 1
  omega

theorem readU32_some_length {s : List Nat} {x : Nat} {r : List Nat}
    (h : readU32 s = some (x, r)) : s.length = r.length + 4 := by
  match s, h with
  | b0 :: b1 :: b2 :: b3 :: rest, h =>
    simp only [readU32, Option.some.injEq, Prod.mk.injEq] at h
    simp [← h.2]

theorem readExact_append (a r : List Nat) :
    readExact a.length (a ++ r) = some (a, r) := by
  simp [readExact, List.take_left, List.drop_left]

theorem readExact_some {n : Nat} {s a r : List Nat}
    (h : readExact n s = some (a, r)) :
    a = s.take n ∧ r = s.drop n ∧ n ≤ s.length := by
  simp only [readExact] at h
  split at h
  · simp only [Option.some.injEq, Prod.mk.injEq] at h
    exact ⟨h.1.symm, h.2.symm, by assumption⟩
  · exact absurd h (by simp)

theorem readWithLength_frame (b rest : List Nat) (hb : b.length < 2^32) :
    ReadWithLength (SendWithLength b ++ rest) = some (b, rest) := by
  simp only [ReadWithLength, SendWithLength, List.append_assoc,
    readU32_u32be, Nat.mod_eq_of_lt hb]
  exact readExact_append b rest

/-- Manifest, mirroring the transfer.Manifest struct (manifest.go): file
name (a byte string, since Go strings are byte slices), file size (int64),
file mode bits, last-modified time and an optional hash. -/
structure Manifest where
  fileName : List Nat
  fileSize : Int
  fileMode : Nat
  lastModTime : Int
  hash : List Nat
deriving DecidableEq

/-- Contract of the encoding/json library as used by the manifest codec:
an encoder and a decoder that round-trip, with serialized form shorter than
2^32 bytes (Go slice lengths fit an int). -/
structure ManifestCodec where
  ser : Manifest → List Nat
  deser : List Nat → Option Manifest
  deser_ser : ∀ m, deser (ser m) = some m
  ser_len_lt : ∀ m, (ser m).length < 2^32

/-- Embedding of SerializeManifest (manifest.go): json.Marshal and nothing
else. -/
def SerializeManifest (C : ManifestCodec) (m : Manifest) : List Nat :=
  C.ser m

/-- Embedding of DeserializeManifest (manifest.go): json.Unmarshal and
nothing else — the function performs no validation of the decoded fields
(in particular no emptiness or path-separator check on file_name). -/
def DeserializeManifest (C : ManifestCodec) (b : List Nat) : Option Manifest :=
  C.deser b

/-- Metadata-plus-content view of a file on the sender side disk. -/
structure FileInfo where
  name : List Nat
  content : List Nat
  mode : Nat
  modTime : Int

/-- Embedding of CreateManifest (manifest.go): read the metadata, never the
body; the hash field is left empty. -/
def CreateManifest (f : FileInfo) : Manifest :=
  { fileName := f.name
    fileSize := (f.content.length : Int)
    fileMode := f.mode
    lastModTime := f.modTime
    hash := [] }

/-- Contract of the crypto/rsa and crypto/x509 library functions used by
the pipeline.  Key identity is abstracted to a Nat naming the keypair; a
wrap made for keypair k unwraps with keypair k.  Marshalled public keys and
wrapped session keys are shorter than 2^32 bytes (true of the RSA-4096
formats the code uses). -/
structure RSAModel where
  marshalPub : Nat → List Nat
  parsePub : List Nat → Option Nat
  wrap : Nat → List Nat → List Nat
  unwrap : Nat → List Nat → Option (List Nat)
  parse_marshal : ∀ k, parsePub (marshalPub k) = some k
  unwrap_wrap : ∀ k d, unwrap k (wrap k d) = some d
  marshal_len_lt : ∀ k, (marshalPub k).length < 2^32
  wrap_len_lt : ∀ k d, (wrap k d).length < 2^32

/-- Contract of crypto/cipher AES-GCM as used by sender and receiver:
sealing appends a 16-byte tag, and opening a sealed chunk with the same key
and nonce returns the plaintext. -/
structure AEADModel where
  gcmSeal : List Nat → List Nat → List Nat → List Nat
  gcmOpen : List Nat → List Nat → List Nat → Option (List Nat)
  open_seal : ∀ k n pt, gcmOpen k n (gcmSeal k n pt) = some pt
  seal_length : ∀ k n pt, (gcmSeal k n pt).length = pt.length + 16

/-- Per-chunk nonce derivation shared by sender.go (lines 125-128) and
receiver.go (lines 182-184): copy the base nonce and overwrite its last 4
bytes with the big-endian 32-bit counter (the uint32 counter wraps mod
2^32, which u32be performs). -/
def deriveNonce (base : List Nat) (ctr : Nat) : List Nat :=
  base.take (base.length - 4) ++ u32be ctr

/-- Plaintext chunking performed by the sender read loop: successive
slices of 64*1024 - 28 = 65508 bytes, the final slice possibly shorter, an
empty file yielding no chunks. -/
def chunkPlain : List Nat → List (List Nat)
  | [] => []
  | a :: l => (a :: l).take 65508 :: chunkPlain ((a :: l).drop 65508)
termination_by l => l.length
decreasing_by
  simp only [List.length_drop, List.length_cons]
  omega

/-- Wire form of the sender chunk loop from counter value ctr: for each
plaintext chunk, a 4-byte big-endian ciphertext length followed by the
ciphertext sealed with the nonce derived at the current counter, the
counter incremented per chunk. -/
def chunksWire (A : AEADModel) (key base : List Nat) : Nat → List (List Nat) → List Nat
  | _, [] => []
  | ctr, pt :: pts =>
      u32be (A.gcmSeal key (deriveNonce base ctr) pt).length ++
        A.gcmSeal key (deriveNonce base ctr) pt ++ chunksWire A key base (ctr + 1) pts

/-- Embedding of transfer.SendFile (sender.go): emit the length-framed
manifest, the marshalled sender public key, the session key wrapped to
the receiver public key, and the base nonce, then the encrypted chunk
sequence from counter 0, then a zero-length terminator.  The random
session key and base nonce are parameters (the code draws them from
crypto/rand). -/
def SendFile (A : AEADModel) (R : RSAModel) (C : ManifestCodec)
    (f : FileInfo) (senderPub receiverPub : Nat) (key base : List Nat) : List Nat :=
  SendWithLength (SerializeManifest C (CreateManifest f)) ++
    SendWithLength (R.marshalPub senderPub) ++
    SendWithLength (R.wrap receiverPub key) ++
    SendWithLength base ++
    chunksWire A key base 0 (chunkPlain f.content) ++
    u32be 0

/-- Error kinds the authenticated receiver can return, one per return-error
site of ReceiveFile (receiver.go, authenticated variant). -/
inductive RErr where
  | manifestFrame
  | manifestParse
  | pubKeyFrame
  | pubKeyParse
  | keyFrame
  | keyUnwrap
  | badKeySize
  | nonceFrame
  | badNonceSize
  | chunkLenRead
  | chunkShortRead
  | decryptFailed
deriving DecidableEq

/-- Result of the receiver chunk loop: normal termination at the
zero-length marker, an error returned with the partial output file left on
disk, an error returned after os.Remove of the partial file, or a Go panic
from slicing the 64 KiB buffer beyond its capacity. -/
inductive LoopRes where
  | done (content rest : List Nat)
  | failKept (e : RErr) (written : List Nat)
  | failRemoved (e : RErr) (written : List Nat)
  | panicSliceBound (written : List Nat)
deriving DecidableEq

/-- Embedding of the receiver chunk loop (receiver.go lines 159-231):
read a 4-byte big-endian chunk length; stop at 0; slice the 64 KiB buffer
to the length (a Go panic when the length exceeds 65536 — the code has no
explicit bound check); io.ReadFull the ciphertext, removing the output file
on a short read; gcm.Open with the derived nonce, returning the error with
the file kept when authentication fails; append the plaintext to the file
and continue with the counter incremented. -/
def recvChunks (A : AEADModel) (key base : List Nat) (ctr : Nat)
    (s : List Nat) (acc : List Nat) : LoopRes :=
  match h1 : readU32 s with
  | none => .failKept .chunkLenRead acc
  | some lr =>
    if lr.1 = 0 then .done acc lr.2
    else if 65536 < lr.1 then .panicSliceBound acc
    else
      match h2 : readExact lr.1 lr.2 with
      | none => .failRemoved .chunkShortRead acc
      | some cr =>
        match A.gcmOpen key (deriveNonce base ctr) cr.1 with
        | none => .failKept .decryptFailed acc
        | some pt => recvChunks A key base (ctr + 1) cr.2 (acc ++ pt)
termination_by s.length
decreasing_by
  have hl1 : s.length = lr.2.length + 4 := readU32_some_length h1
  have hl2 := (readExact_some h2).2.1
  have : cr.2.length ≤ lr.2.length := by
    rw [hl2]
    simp [List.length_drop]
  omega

/-- Outcome of one ReceiveFile run: success with the parsed manifest and
the bytes written to the output file; an error before the output file was
created; an error after creation, recording whether the partial file was
removed and what had been written; or a Go panic (partial file left on
disk). -/
inductive RecvOutcome where
  | ok (m : Manifest) (content : List Nat)
  | errNoFile (e : RErr)
  | errFile (e : RErr) (removed : Bool) (written : List Nat)
  | panicked (written : List Nat)
deriving DecidableEq

/-- Embedding of transfer.ReceiveFile (receiver.go, authenticated variant,
lines 82-240): read and parse the framed manifest, the sender public key,
and the wrapped session key; unwrap with our private key; initialize
AES-GCM (aes.NewCipher rejects keys that are not 16, 24 or 32 bytes); read
the framed base nonce and require the AEAD nonce size 12; create the output
file; then run the chunk loop.  Every step before file creation that fails
yields errNoFile; the chunk loop failure modes carry whether the partial
file was removed. -/
def ReceiveFile (A : AEADModel) (R : RSAModel) (C : ManifestCodec)
    (priv : Nat) (s : List Nat) : RecvOutcome :=
  match ReadWithLength s with
  | none => .errNoFile .manifestFrame
  | some (mb, s1) =>
    match DeserializeManifest C mb with
    | none => .errNoFile .manifestParse
    | some m =>
      match ReadWithLength s1 with
      | none => .errNoFile .pubKeyFrame
      | some (pb, s2) =>
        match R.parsePub pb with
        | none => .errNoFile .pubKeyParse
        | some _senderPub =>
          match ReadWithLength s2 with
          | none => .errNoFile .keyFrame
          | some (kb, s3) =>
            match R.unwrap priv kb with
            | none => .errNoFile .keyUnwrap
            | some fileKey =>
              if ¬(fileKey.length = 16 ∨ fileKey.length = 24 ∨ fileKey.length = 32) then
                .errNoFile .badKeySize
              else
                match ReadWithLength s3 with
                | none => .errNoFile .nonceFrame
                | some (nb, s4) =>
                  if nb.length ≠ 12 then .errNoFile .badNonceSize
                  else
                    match recvChunks A fileKey nb 0 s4 [] with
                    | .done content _rest => .ok m content
                    | .failKept e written => .errFile e false written
                    | .failRemoved e written => .errFile e true written
                    | .panicSliceBound written => .panicked written

theorem chunkPlain_join (l : List Nat) : (chunkPlain l).flatten = l := by
  induction l using chunkPlain.induct with
  | case1 => simp [chunkPlain]
  | case2 a t ih =>
      rw [chunkPlain]
      simp only [List.flatten_cons, ih, List.take_append_drop]

theorem chunkPlain_length_le (l : List Nat) :
    ∀ c ∈ chunkPlain l, c.length ≤ 65508 := by
  induction l using chunkPlain.induct with
  | case1 => simp [chunkPlain]
  | case2 a t ih =>
      rw [chunkPlain]
      intro c hc
      rcases List.mem_cons.mp hc with h | h
      · subst h
        simpa using List.length_take_le 65508 (a :: t)
      · exact ih c h

theorem recvChunks_term (A : AEADModel) (key base : List Nat) (ctr : Nat)
    (rest acc : List Nat) :
    recvChunks A key base ctr (u32be 0 ++ rest) acc = .done acc rest := by
  rw [recvChunks, readU32_u32be]
  norm_num

theorem recvChunks_step (A : AEADModel) (key base : List Nat) (ctr : Nat)
    (acc pt rest : List Nat) (hlen : pt.length ≤ 65508) :
    recvChunks A key base ctr
      (u32be (A.gcmSeal key (deriveNonce base ctr) pt).length ++
        (A.gcmSeal key (deriveNonce base ctr) pt ++ rest)) acc =
    recvChunks A key base (ctr + 1) rest (acc ++ pt) := by
  have hct := A.seal_length key (deriveNonce base ctr) pt
  have hmod : (A.gcmSeal key (deriveNonce base ctr) pt).length % 2^32 = pt.length + 16 := by
    rw [hct]
    exact Nat.mod_eq_of_lt (by omega)
  rw [recvChunks, readU32_u32be, hmod]
  have hne : ¬(pt.length + 16 = 0) := by omega
  have hbound : ¬(65536 < pt.length + 16) := by omega
  have hre : readExact (pt.length + 16) (A.gcmSeal key (deriveNonce base ctr) pt ++ rest)
      = some (A.gcmSeal key (deriveNonce base ctr) pt, rest) := by
    rw [← hct]
    exact readExact_append _ _
  simp only [hne, if_false, hbound, hre, A.open_seal]
  rw [hre]
  simp [A.open_seal]

theorem recvChunks_wire (A : AEADModel) (key base : List Nat)
    (pts : List (List Nat)) (h : ∀ pt ∈ pts, pt.length ≤ 65508) :
    ∀ ctr acc rest,
      recvChunks A key base ctr
        (chunksWire A key base ctr pts ++ u32be 0 ++ rest) acc =
      .done (acc ++ pts.flatten) rest := by
  induction pts with
  | nil =>
      intro ctr acc rest
      simp [chunksWire, recvChunks_term]
  | cons pt pts ih =>
      intro ctr acc rest
      have hpt : pt.length ≤ 65508 := h pt (by simp)
      have hrest : ∀ q ∈ pts, q.length ≤ 65508 := fun q hq => h q (by simp [hq])
      rw [chunksWire]
      simp only [List.append_assoc]
      rw [recvChunks_step A key base ctr acc pt _ hpt]
      rw [← List.append_assoc (chunksWire A key base (ctr + 1) pts)]
      rw [ih hrest (ctr + 1) (acc ++ pt)]
      simp [List.flatten_cons, List.append_assoc]

theorem receiveFile_wire (A : AEADModel) (R : RSAModel) (C : ManifestCodec)
    (m : Manifest) (priv senderPub : Nat) (key base : List Nat)
    (hk : key.length = 32) (hb : base.length = 12)
    (pts : List (List Nat)) (hpts : ∀ pt ∈ pts, pt.length ≤ 65508) :
    ReceiveFile A R C priv
      (SendWithLength (SerializeManifest C m) ++
        SendWithLength (R.marshalPub senderPub) ++
        SendWithLength (R.wrap priv key) ++
        SendWithLength base ++
        chunksWire A key base 0 pts ++
        u32be 0) = .ok m pts.flatten := by
  unfold ReceiveFile
  simp only [List.append_assoc, SerializeManifest]
  rw [readWithLength_frame _ _ (C.ser_len_lt m)]
  simp only [DeserializeManifest, C.deser_ser]
  rw [readWithLength_frame _ _ (R.marshal_len_lt senderPub)]
  simp only [R.parse_marshal]
  rw [readWithLength_frame _ _ (R.wrap_len_lt priv key)]
  simp only [R.unwrap_wrap]
  simp only [hk]
  norm_num
  rw [readWithLength_frame _ _ (by rw [hb]; norm_num)]
  simp only [hb]
  norm_num
  have hrc := recvChunks_wire A key base pts hpts 0 [] []
  simp only [List.append_nil, List.nil_append] at hrc
  rw [hrc]

/-- List-of-naturals encoding into a single natural via iterated pairing,
used only by the concrete witness instances of the library contracts. -/
def encL : List Nat → Nat
  | [] => 0
  | a :: l => Nat.pair a (encL l) + 1

/-- Inverse of encL. -/
def decL : Nat → List Nat
  | 0 => []
  | n + 1 => (Nat.unpair n).1 :: decL (Nat.unpair n).2
decreasing_by
  have := Nat.unpair_right_le n
  omega

theorem decL_encL (l : List Nat) : decL (encL l) = l := by
  induction l with
  | nil => simp [encL, decL]
  | cons a l ih => simp [encL, decL, Nat.unpair_pair, ih]

/-- Integer encoding into a natural, for the witness manifest codec. -/
def encInt (i : Int) : Nat :=
  if i < 0 then 2 * (-i).toNat + 1 else 2 * i.toNat

/-- Inverse of encInt. -/
def decInt (n : Nat) : Int :=
  if n % 2 = 1 then -(((n - 1) / 2 : Nat) : Int) else ((n / 2 : Nat) : Int)

theorem decInt_encInt (i : Int) : decInt (encInt i) = i := by
  rcases le_or_lt 0 i with h | h
  · have : ¬(i < 0) := not_lt.mpr h
    simp only [encInt, this, if_false, decInt]
    have h2 : 2 * i.toNat % 2 = 0 := by omega
    simp only [h2]
    norm_num
    omega
  · have hlt : i < 0 := h
    simp only [encInt, hlt, if_true, decInt]
    have h2 : (2 * (-i).toNat + 1) % 2 = 1 := by omega
    simp only [h2]
    norm_num
    omega

/-- Witness instance of the manifest codec contract: each manifest encoded
injectively into one natural. -/
def Cinst : ManifestCodec where
  ser := fun m =>
    [Nat.pair (encL m.fileName) (Nat.pair (encInt m.fileSize)
      (Nat.pair m.fileMode (Nat.pair (encInt m.lastModTime) (encL m.hash))))]
  deser := fun b =>
    match b with
    | [e] =>
        some { fileName := decL (Nat.unpair e).1
               fileSize := decInt (Nat.unpair (Nat.unpair e).2).1
               fileMode := (Nat.unpair (Nat.unpair (Nat.unpair e).2).2).1
               lastModTime :=
                 decInt (Nat.unpair (Nat.unpair (Nat.unpair (Nat.unpair e).2).2).2).1
               hash := decL (Nat.unpair (Nat.unpair (Nat.unpair (Nat.unpair e).2).2).2).2 }
    | _ => none
  deser_ser := by
    intro m
    simp [Nat.unpair_pair, decL_encL, decInt_encInt]
  ser_len_lt := by
    intro m
    norm_num

/-- Witness instance of the RSA contract: keypairs named by naturals, the
wrap prefixing the key name. -/
def Rinst : RSAModel where
  marshalPub := fun k => [k]
  parsePub := fun b => match b with | [k] => some k | _ => none
  wrap := fun k d => [k, encL d]
  unwrap := fun k l =>
    match l with
    | [i, e] => if i = k then some (decL e) else none
    | _ => none
  parse_marshal := by intro k; rfl
  unwrap_wrap := by intro k d; simp [decL_encL]
  marshal_len_lt := by intro k; norm_num
  wrap_len_lt := by intro k d; norm_num

/-- Deterministic 16-byte tag for the witness AEAD instance. -/
def tagOf (k n pt : List Nat) : List Nat :=
  List.replicate 16 ((k.sum + n.sum + pt.sum) % 256)

/-- Witness instance of the AEAD contract: ciphertext is plaintext followed
by a 16-byte tag that opening recomputes and checks. -/
def Ainst : AEADModel where
  gcmSeal := fun k n pt => pt ++ tagOf k n pt
  gcmOpen := fun k n ct =>
    if 16 ≤ ct.length then
      if ct.drop (ct.length - 16) = tagOf k n (ct.take (ct.length - 16)) then
        some (ct.take (ct.length - 16))
      else none
    else none
  open_seal := by
    intro k n pt
    have hlen : (pt ++ tagOf k n pt).length - 16 = pt.length := by
      simp [tagOf]
    have htake : (pt ++ tagOf k n pt).take pt.length = pt := List.take_left pt _
    have hdrop : (pt ++ tagOf k n pt).drop pt.length = tagOf k n pt := List.drop_left pt _
    simp [hlen, htake, hdrop, tagOf]
  seal_length := by
    intro k n pt
    simp [tagOf]

/-- Sample file used by witnesses. -/
def fDemo : FileInfo := ⟨[104, 105], [1, 2, 3], 420, 1700000000⟩

/-- Sample 32-byte session key used by witnesses. -/
def keyDemo : List Nat := List.replicate 32 0

/-- Sample 12-byte base nonce used by witnesses. -/
def baseDemo : List Nat := List.replicate 12 0

/-- C1: for every file F with fewer than 2^31 bytes, feeding the byte
stream produced by SendFile into ReceiveFile (with the session key wrapped
to the receiver keypair) yields a successful transfer whose output bytes
are exactly the content of F, and the manifest carried in the first wire frame
has file_name and file_size identical to those of F. -/
theorem sendFile_receiveFile_roundtrip (A : AEADModel) (R : RSAModel)
    (C : ManifestCodec) (f : FileInfo) (priv senderPub : Nat)
    (key base : List Nat) (hk : key.length = 32) (hb : base.length = 12)
    (hsize : f.content.length < 2^31) :
    ReceiveFile A R C priv (SendFile A R C f senderPub priv key base) =
      .ok (CreateManifest f) f.content ∧
    (CreateManifest f).fileName = f.name ∧
    (CreateManifest f).fileSize = (f.content.length : Int) := by
  refine ⟨?_, rfl, rfl⟩
  unfold SendFile
  rw [receiveFile_wire A R C (CreateManifest f) priv senderPub key base hk hb
    (chunkPlain f.content) (chunkPlain_length_le f.content)]
  rw [chunkPlain_join f.content]

/-- Witness for C1 at a concrete 3-byte file with the concrete library
instances. -/
theorem sendFile_receiveFile_roundtrip_witness :
    keyDemo.length = 32 ∧ baseDemo.length = 12 ∧ fDemo.content.length < 2^31 ∧
    ReceiveFile Ainst Rinst Cinst 0 (SendFile Ainst Rinst Cinst fDemo 1 0 keyDemo baseDemo) =
      .ok (CreateManifest fDemo) fDemo.content :=
  ⟨by decide, by decide, by decide,
    (sendFile_receiveFile_roundtrip Ainst Rinst Cinst fDemo 0 1 keyDemo baseDemo
      (by decide) (by decide) (by decide)).1⟩

theorem u32be_inj_of_lt {i j : Nat} (hi : i < 2^32) (hj : j < 2^32)
    (h : u32be i = u32be j) : i = j := by
  have h2 : readU32 (u32be i ++ []) = readU32 (u32be j ++ []) := by rw [h]
  rw [readU32_u32be, readU32_u32be] at h2
  simp only [Option.some.injEq, Prod.mk.injEq] at h2
  rw [Nat.mod_eq_of_lt hi, Nat.mod_eq_of_lt hj] at h2
  exact h2.1

/-- C2: deriveNonce — the definition both SendFile (through chunksWire) and
ReceiveFile (through recvChunks) call, with the counter starting at 0 and
incremented per chunk — equals the base nonce with its final 4 bytes
replaced by the 32-bit big-endian counter, and for any session of N chunks
with N at most 2^32 the N derived nonces are pairwise distinct. -/
theorem deriveNonce_spec_and_unique (base : List Nat) (N : Nat)
    (hN : N ≤ 2^32) :
    (∀ ctr, deriveNonce base ctr = base.take (base.length - 4) ++ u32be ctr) ∧
    ((List.range N).map (deriveNonce base)).Nodup := by
  refine ⟨fun _ => rfl, ?_⟩
  refine List.Nodup.map_on ?_ (List.nodup_range N)
  intro i hi j hj hij
  have hi' : i < 2^32 := lt_of_lt_of_le (List.mem_range.mp hi) hN
  have hj' : j < 2^32 := lt_of_lt_of_le (List.mem_range.mp hj) hN
  have hij2 : base.take (base.length - 4) ++ u32be i =
      base.take (base.length - 4) ++ u32be j := hij
  have hu : u32be i = u32be j := List.append_cancel_left hij2
  exact u32be_inj_of_lt hi' hj' hu

/-- Witness for C2 with the demo base nonce and a 5-chunk session. -/
theorem deriveNonce_spec_and_unique_witness :
    5 ≤ 2^32 ∧ ((List.range 5).map (deriveNonce baseDemo)).Nodup :=
  ⟨by norm_num, (deriveNonce_spec_and_unique baseDemo 5 (by norm_num)).2⟩

/-- C10: acceptance by the authenticated receiver is independent of the
declared manifest file_size.  For any manifest whose file_size field is
set to an arbitrary value s, and any chunk sequence that authenticates,
ReceiveFile succeeds as soon as it reads the zero-length terminator, with
the output being the concatenated plaintext — no comparison with the
declared size is ever made (the size only feeds the progress display). -/
theorem receiveFile_ignores_fileSize (A : AEADModel) (R : RSAModel)
    (C : ManifestCodec) (m : Manifest) (s : Int) (priv senderPub : Nat)
    (key base : List Nat) (hk : key.length = 32) (hb : base.length = 12)
    (pts : List (List Nat)) (hpts : ∀ pt ∈ pts, pt.length ≤ 65508) :
    ReceiveFile A R C priv
      (SendWithLength (SerializeManifest C { m with fileSize := s }) ++
        SendWithLength (R.marshalPub senderPub) ++
        SendWithLength (R.wrap priv key) ++
        SendWithLength base ++
        chunksWire A key base 0 pts ++
        u32be 0) = .ok { m with fileSize := s } pts.flatten :=
  receiveFile_wire A R C { m with fileSize := s } priv senderPub key base hk hb pts hpts

/-- Witness for C10: a manifest declaring 999 bytes while the single
authenticated chunk carries 3 bytes is still accepted. -/
theorem receiveFile_ignores_fileSize_witness :
    keyDemo.length = 32 ∧ baseDemo.length = 12 ∧
    (∀ pt ∈ [[1, 2, 3]], List.length pt ≤ 65508) ∧
    ReceiveFile Ainst Rinst Cinst 0
      (SendWithLength (SerializeManifest Cinst { CreateManifest fDemo with fileSize := 999 }) ++
        SendWithLength (Rinst.marshalPub 1) ++
        SendWithLength (Rinst.wrap 0 keyDemo) ++
        SendWithLength baseDemo ++
        chunksWire Ainst keyDemo baseDemo 0 [[1, 2, 3]] ++
        u32be 0) = .ok { CreateManifest fDemo with fileSize := 999 } [1, 2, 3] :=
  ⟨by decide, by decide, by decide,
    receiveFile_ignores_fileSize Ainst Rinst Cinst (CreateManifest fDemo) 999 0 1
      keyDemo baseDemo (by decide) (by decide) [[1, 2, 3]] (by decide)⟩

/-- C5 amended: util.ReadWithLength enforces no maximum frame size — for
every decoded 32-bit length it attempts to read exactly that many bytes,
succeeding whenever the stream holds them, and failing only on a short
stream. -/
theorem readWithLength_no_limit :
    (∀ (data rest : List Nat), data.length < 2^32 →
      ReadWithLength (SendWithLength data ++ rest) = some (data, rest)) ∧
    (∀ (s : List Nat) (L : Nat) (r : List Nat), readU32 s = some (L, r) →
      r.length < L → ReadWithLength s = none) := by
  refine ⟨readWithLength_frame, ?_⟩
  intro s L r h hshort
  unfold ReadWithLength
  rw [h]
  simp only [readExact]
  rw [if_neg (by omega)]

/-- Witness for the amended C5 statement: a 2-byte frame is read back whole,
and a frame announcing 5 bytes over a 2-byte stream fails. -/
theorem readWithLength_no_limit_witness :
    ([7, 7] : List Nat).length < 2^32 ∧
    ReadWithLength (SendWithLength [7, 7] ++ [9]) = some ([7, 7], [9]) ∧
    ReadWithLength [0, 0, 0, 5, 1, 2] = none :=
  ⟨by norm_num, readWithLength_no_limit.1 [7, 7] [9] (by norm_num),
    readWithLength_no_limit.2 [0, 0, 0, 5, 1, 2] 5 [1, 2] (by decide) (by decide)⟩

/-- Counterexample to C5 as stated: a frame whose declared length is
16 MiB + 1 — beyond the claimed default maximum — is read successfully in
full rather than rejected with FrameTooLarge. -/
theorem readWithLength_counterexample_16MiB :
    ReadWithLength (u32be (2^24 + 1) ++ List.replicate (2^24 + 1) 7) =
      some (List.replicate (2^24 + 1) 7, []) := by
  have hlen : (List.replicate (2^24 + 1) 7).length = 2^24 + 1 :=
    List.length_replicate _ _
  have h := readWithLength_frame (List.replicate (2^24 + 1) 7) []
    (by rw [hlen]; norm_num)
  rw [List.append_nil] at h
  rw [SendWithLength, hlen] at h
  exact h

/-- Stream whose handshake frames are valid but whose first chunk declares
a length of 65537, one above the 64 KiB receiver buffer. -/
def oversizeChunkStream : List Nat :=
  SendWithLength (SerializeManifest Cinst (CreateManifest fDemo)) ++
    SendWithLength (Rinst.marshalPub 1) ++
    SendWithLength (Rinst.wrap 0 keyDemo) ++
    SendWithLength baseDemo ++
    u32be 65537

theorem receiveFile_frames (A : AEADModel) (R : RSAModel) (C : ManifestCodec)
    (m : Manifest) (priv senderPub : Nat) (key base : List Nat)
    (hk : key.length = 32) (hb : base.length = 12) (tail : List Nat) :
    ReceiveFile A R C priv
      (SendWithLength (SerializeManifest C m) ++
        SendWithLength (R.marshalPub senderPub) ++
        SendWithLength (R.wrap priv key) ++
        SendWithLength base ++
        tail) =
    (match recvChunks A key base 0 tail [] with
      | .done content _rest => .ok m content
      | .failKept e written => .errFile e false written
      | .failRemoved e written => .errFile e true written
      | .panicSliceBound written => .panicked written) := by
  unfold ReceiveFile
  simp only [List.append_assoc, SerializeManifest]
  rw [readWithLength_frame _ _ (C.ser_len_lt m)]
  simp only [DeserializeManifest, C.deser_ser]
  rw [readWithLength_frame _ _ (R.marshal_len_lt senderPub)]
  simp only [R.parse_marshal]
  rw [readWithLength_frame _ _ (R.wrap_len_lt priv key)]
  simp only [R.unwrap_wrap]
  simp only [hk]
  norm_num
  rw [readWithLength_frame _ _ (by rw [hb]; norm_num)]
  simp only [hb]
  norm_num

theorem recvChunks_oversize (A : AEADModel) (key base : List Nat) (ctr : Nat)
    (rest acc : List Nat) (L : Nat) (h1 : 65536 < L) (h2 : L < 2^32) :
    recvChunks A key base ctr (u32be L ++ rest) acc = .panicSliceBound acc := by
  rw [recvChunks, readU32_u32be, Nat.mod_eq_of_lt h2]
  have hne : ¬(L = 0) := by omega
  simp only [hne, if_false, h1, if_true]

/-- C4 evidence: on a chunk length field of 65537 the receiver does not
return a ChunkTooLarge error — the embedded code reaches the slice of the
64 KiB buffer with an out-of-range bound, which in Go is a runtime panic. -/
theorem receiveFile_panics_on_oversize_chunkLen :
    ReceiveFile Ainst Rinst Cinst 0 oversizeChunkStream = .panicked [] := by
  have h := receiveFile_frames Ainst Rinst Cinst (CreateManifest fDemo) 0 1
    keyDemo baseDemo (by decide) (by decide) (u32be 65537)
  rw [oversizeChunkStream]
  rw [h]
  rw [show u32be 65537 = u32be 65537 ++ [] from (List.append_nil _).symm]
  rw [recvChunks_oversize Ainst keyDemo baseDemo 0 [] [] 65537 (by norm_num) (by norm_num)]

theorem recvChunks_failRemoved_eq (A : AEADModel) (key base : List Nat)
    (ctr : Nat) (s acc : List Nat) :
    ∀ e w, recvChunks A key base ctr s acc = .failRemoved e w →
      e = RErr.chunkShortRead := by
  induction ctr, s, acc using recvChunks.induct A key base with
  | case1 ctr s acc h1 =>
      intro e w h
      rw [recvChunks, h1] at h
      norm_num at h
      exact absurd h (by simp)
  | case2 ctr s acc lr h1 hz =>
      intro e w h
      rw [recvChunks, h1] at h
      norm_num [hz] at h
      exact absurd h (by simp)
  | case3 ctr s acc lr h1 hz hbig =>
      intro e w h
      rw [recvChunks, h1] at h
      norm_num [hz, hbig] at h
      exact absurd h (by simp)
  | case4 ctr s acc lr h1 hz hbig h2 =>
      intro e w h
      rw [recvChunks, h1] at h
      norm_num [hz, hbig] at h
      rw [h2] at h
      norm_num at h
      exact h.1.symm
  | case5 ctr s acc lr h1 hz hbig cr h2 h3 =>
      intro e w h
      rw [recvChunks, h1] at h
      norm_num [hz, hbig] at h
      rw [h2] at h
      norm_num [h3] at h
      exact absurd h (by simp)
  | case6 ctr s acc lr h1 hz hbig cr h2 pt h3 ih =>
      intro e w h
      rw [recvChunks, h1] at h
      norm_num [hz, hbig] at h
      rw [h2] at h
      norm_num [h3] at h
      exact ih e w h

theorem recvChunks_failKept_ne (A : AEADModel) (key base : List Nat)
    (ctr : Nat) (s acc : List Nat) :
    ∀ e w, recvChunks A key base ctr s acc = .failKept e w →
      e ≠ RErr.chunkShortRead := by
  induction ctr, s, acc using recvChunks.induct A key base with
  | case1 ctr s acc h1 =>
      intro e w h
      rw [recvChunks, h1] at h
      norm_num at h
      simp [← h.1]
  | case2 ctr s acc lr h1 hz =>
      intro e w h
      rw [recvChunks, h1] at h
      norm_num [hz] at h
      exact absurd h (by simp)
  | case3 ctr s acc lr h1 hz hbig =>
      intro e w h
      rw [recvChunks, h1] at h
      norm_num [hz, hbig] at h
      exact absurd h (by simp)
  | case4 ctr s acc lr h1 hz hbig h2 =>
      intro e w h
      rw [recvChunks, h1] at h
      norm_num [hz, hbig] at h
      rw [h2] at h
      norm_num at h
      exact absurd h (by simp)
  | case5 ctr s acc lr h1 hz hbig cr h2 h3 =>
      intro e w h
      rw [recvChunks, h1] at h
      norm_num [hz, hbig] at h
      rw [h2] at h
      norm_num [h3] at h
      simp [← h.1]
  | case6 ctr s acc lr h1 hz hbig cr h2 pt h3 ih =>
      intro e w h
      rw [recvChunks, h1] at h
      norm_num [hz, hbig] at h
      rw [h2] at h
      norm_num [h3] at h
      exact ih e w h

/-- C3 amended: after the output file is created, the receiver removes the
partial file if and only if the failure is a short read of a chunk body;
on AEAD authentication failure (and on a failed chunk-length read) the
error is returned with the partial file left on disk. -/
theorem receiveFile_removed_iff_shortRead (A : AEADModel) (R : RSAModel)
    (C : ManifestCodec) (priv : Nat) (s : List Nat) (e : RErr) (rm : Bool)
    (w : List Nat) (h : ReceiveFile A R C priv s = .errFile e rm w) :
    rm = true ↔ e = RErr.chunkShortRead := by
  unfold ReceiveFile at h
  repeat' split at h
  all_goals cases h
  · exact iff_of_false (by simp)
      (recvChunks_failKept_ne A _ _ 0 _ [] _ _ (by assumption))
  · exact iff_of_true rfl
      (recvChunks_failRemoved_eq A _ _ 0 _ [] _ _ (by assumption))

/-- Session key whose byte sum differs from that of keyDemo, used to build a
chunk whose tag does not verify under the witness AEAD. -/
def keyOne : List Nat := 1 :: List.replicate 31 0

/-- Stream with a valid handshake followed by one 17-byte ciphertext chunk
whose authentication tag does not verify. -/
def tamperedChunkStream : List Nat :=
  SendWithLength (SerializeManifest Cinst (CreateManifest fDemo)) ++
    SendWithLength (Rinst.marshalPub 1) ++
    SendWithLength (Rinst.wrap 0 keyOne) ++
    SendWithLength baseDemo ++
    (u32be 17 ++ (List.replicate 17 0 ++ u32be 0))

/-- Counterexample to C3 as stated: on an AEAD verification failure the
receiver returns the authentication error with removed = false — the
partial output file is NOT removed from disk, contrary to the claim. -/
theorem receiveFile_auth_failure_keeps_file :
    ReceiveFile Ainst Rinst Cinst 0 tamperedChunkStream =
      .errFile .decryptFailed false [] := by
  have h := receiveFile_frames Ainst Rinst Cinst (CreateManifest fDemo) 0 1
    keyOne baseDemo (by decide) (by decide)
    (u32be 17 ++ (List.replicate 17 0 ++ u32be 0))
  rw [tamperedChunkStream, h]
  rw [recvChunks]
  decide

/-- Stream with a valid handshake followed by a chunk announcing 5 bytes
while only 2 remain: the short-read branch. -/
def shortReadStream : List Nat :=
  SendWithLength (SerializeManifest Cinst (CreateManifest fDemo)) ++
    SendWithLength (Rinst.marshalPub 1) ++
    SendWithLength (Rinst.wrap 0 keyDemo) ++
    SendWithLength baseDemo ++
    (u32be 5 ++ [1, 2])

theorem shortReadStream_eval :
    ReceiveFile Ainst Rinst Cinst 0 shortReadStream =
      .errFile .chunkShortRead true [] := by
  have h := receiveFile_frames Ainst Rinst Cinst (CreateManifest fDemo) 0 1
    keyDemo baseDemo (by decide) (by decide) (u32be 5 ++ [1, 2])
  rw [shortReadStream, h]
  rw [recvChunks]
  decide

/-- Witness for the amended C3 statement at the short-read stream, where the
partial file is indeed removed. -/
theorem receiveFile_removed_iff_shortRead_witness :
    ReceiveFile Ainst Rinst Cinst 0 shortReadStream =
      .errFile .chunkShortRead true [] ∧
    (true = true ↔ RErr.chunkShortRead = RErr.chunkShortRead) :=
  ⟨shortReadStream_eval,
    receiveFile_removed_iff_shortRead Ainst Rinst Cinst 0 shortReadStream
      RErr.chunkShortRead true [] shortReadStream_eval⟩

/-- Existence state of the two identity key files (private.pem,
public.pem) in the working directory. -/
structure KeyFiles where
  privExists : Bool
  pubExists : Bool
deriving DecidableEq

/-- Result vocabulary for GenerateRSAKeyPair.  The spec failure
KeypairInconsistent has a constructor so that the claim is
expressible; no path of the embedded code produces it. -/
inductive GenOutcome where
  | okGen (generated : Bool)
  | keypairInconsistent
deriving DecidableEq

/-- Embedding of keys.GenerateRSAKeyPair (part_007 lines 22-69): if the
private key file exists, return success immediately; otherwise if the
public key file exists, return success immediately; only when neither
exists generate a fresh RSA pair and persist both files.  Stat errors
other than not-exist are not modeled (the filesystem is assumed
healthy). -/
def GenerateRSAKeyPair (fs : KeyFiles) : KeyFiles × GenOutcome :=
  if fs.privExists then (fs, .okGen false)
  else if fs.pubExists then (fs, .okGen false)
  else ({ privExists := true, pubExists := true }, .okGen true)

/-- Counterexample to C8 as stated: with exactly one key file present (in
either direction) the function returns success, leaves the filesystem
unchanged, and generates nothing — it does not fail with
KeypairInconsistent. -/
theorem generateRSAKeyPair_single_file_no_failure :
    GenerateRSAKeyPair ⟨true, false⟩ = (⟨true, false⟩, .okGen false) ∧
    GenerateRSAKeyPair ⟨false, true⟩ = (⟨false, true⟩, .okGen false) := by
  decide

/-- C8 amended: if either key file exists, GenerateRSAKeyPair returns
success with the filesystem unchanged and nothing generated (so the
inconsistent single-file states are accepted silently instead of failing
with KeypairInconsistent); only when neither file exists does it generate
and persist both. -/
theorem generateRSAKeyPair_cases (fs : KeyFiles) :
    ((fs.privExists = true ∨ fs.pubExists = true) →
      GenerateRSAKeyPair fs = (fs, .okGen false)) ∧
    (fs.privExists = false → fs.pubExists = false →
      GenerateRSAKeyPair fs = (⟨true, true⟩, .okGen true)) := by
  obtain ⟨a, b⟩ := fs
  cases a <;> cases b <;> simp [GenerateRSAKeyPair]

/-- Witness for the amended C8 statement at the two-files and no-files
states. -/
theorem generateRSAKeyPair_cases_witness :
    GenerateRSAKeyPair ⟨true, true⟩ = (⟨true, true⟩, .okGen false) ∧
    GenerateRSAKeyPair ⟨false, false⟩ = (⟨true, true⟩, .okGen true) :=
  ⟨(generateRSAKeyPair_cases ⟨true, true⟩).1 (Or.inl rfl),
    (generateRSAKeyPair_cases ⟨false, false⟩).2 rfl rfl⟩

/-- Manifest whose file_name is empty. -/
def emptyNameManifest : Manifest := ⟨[], 0, 0, 0, []⟩

/-- Manifest whose file_name contains the path separator byte 47. -/
def slashNameManifest : Manifest := ⟨[47, 97], 1, 0, 0, []⟩

/-- Counterexample to C9 as stated: byte strings decoding to a manifest
with an empty file_name — or with a path separator in the name — are
accepted by DeserializeManifest rather than rejected. -/
theorem deserializeManifest_accepts_invalid_names :
    DeserializeManifest Cinst (SerializeManifest Cinst emptyNameManifest) =
      some emptyNameManifest ∧
    emptyNameManifest.fileName = [] ∧
    DeserializeManifest Cinst (SerializeManifest Cinst slashNameManifest) =
      some slashNameManifest ∧
    47 ∈ slashNameManifest.fileName :=
  ⟨Cinst.deser_ser _, rfl, Cinst.deser_ser _, by decide⟩

/-- C9 amended: DeserializeManifest applies no validation: serialize
followed by parse returns the original manifest for every manifest —
including those with empty file_name — and every byte string the decoder
accepts is returned as-is. -/
theorem deserializeManifest_roundtrip_no_validation (C : ManifestCodec) :
    (∀ m : Manifest, DeserializeManifest C (SerializeManifest C m) = some m) ∧
    (∀ (b : List Nat) (m : Manifest), C.deser b = some m →
      DeserializeManifest C b = some m) :=
  ⟨C.deser_ser, fun _ _ h => h⟩

/-- Witness for the amended C9 statement at the empty-name manifest. -/
theorem deserializeManifest_roundtrip_no_validation_witness :
    DeserializeManifest Cinst (SerializeManifest Cinst emptyNameManifest) =
      some emptyNameManifest ∧
    DeserializeManifest Cinst (Cinst.ser slashNameManifest) =
      some slashNameManifest :=
  ⟨(deserializeManifest_roundtrip_no_validation Cinst).1 emptyNameManifest,
    (deserializeManifest_roundtrip_no_validation Cinst).2 _ _
      (Cinst.deser_ser slashNameManifest)⟩

/-- Embedding of the known passcode constant in netconn/tcp.go. -/
def passcode : String := "hello123"

/-- Contract of the bcrypt library (golang.org/x/crypto/bcrypt) as the
challenge uses it: GenerateFromPassword with a salt produces a tag that
CompareHashAndPassword accepts exactly for the hashed input (the
collision resistance of bcrypt idealized). -/
structure BcryptModel where
  Tag : Type
  gen : Nat → String → Tag
  verify : Tag → String → Bool
  verify_gen : ∀ s x, verify (gen s x) x = true
  verify_sound : ∀ s x y, verify (gen s x) y = true → x = y

/-- Embedding of the decision of handleConnection (tcp.go lines 70-87): emit
SUCCESS when bcrypt verification of the client tag against
known passcode concatenated with the session nonce succeeds, FAIL
otherwise. -/
def handleConnectionVerdict (B : BcryptModel) (tag : B.Tag) (nonce : String) :
    String :=
  if B.verify tag (passcode ++ nonce) then "SUCCESS\n" else "FAIL\n"

theorem string_append_cancel_right {p q n : String} (h : p ++ n = q ++ n) :
    p = q := by
  cases p with | mk a =>
  cases q with | mk b =>
  cases n with | mk c =>
  simp [String.ext_iff] at h ⊢
  exact h

theorem string_append_cancel_left {p n m : String} (h : p ++ n = p ++ m) :
    n = m := by
  cases p with | mk a =>
  cases n with | mk b =>
  cases m with | mk c =>
  simp [String.ext_iff] at h ⊢
  exact h

/-- C7: the TCP server accepts exactly when the client tag verifies as a
bcrypt hash of the known passcode concatenated with the session nonce;
hashing that exact string verifies, while a tag built from a different
passcode or a different nonce is rejected with FAIL. -/
theorem handleConnection_auth_binding (B : BcryptModel) :
    (∀ (tag : B.Tag) (n : String),
      handleConnectionVerdict B tag n = "SUCCESS\n" ↔
        B.verify tag (passcode ++ n) = true) ∧
    (∀ (s : Nat) (p n : String), B.verify (B.gen s (p ++ n)) (p ++ n) = true) ∧
    (∀ (s : Nat) (p n : String), p ≠ passcode →
      handleConnectionVerdict B (B.gen s (p ++ n)) n = "FAIL\n") ∧
    (∀ (s : Nat) (n' n : String), n' ≠ n →
      handleConnectionVerdict B (B.gen s (passcode ++ n')) n = "FAIL\n") := by
  refine ⟨?_, fun s p n => B.verify_gen s (p ++ n), ?_, ?_⟩
  · intro tag n
    by_cases hv : B.verify tag (passcode ++ n) = true
    · simp [handleConnectionVerdict, hv]
    · simp only [handleConnectionVerdict, if_neg hv]
      constructor
      · intro hfail
        exact absurd hfail (by decide)
      · intro hv2
        exact absurd hv2 hv
  · intro s p n hp
    have hv : ¬(B.verify (B.gen s (p ++ n)) (passcode ++ n) = true) := by
      intro hv
      exact hp (string_append_cancel_right (B.verify_sound s _ _ hv))
    simp [handleConnectionVerdict, hv]
  · intro s n' n hn
    have hv : ¬(B.verify (B.gen s (passcode ++ n')) (passcode ++ n) = true) := by
      intro hv
      exact hn (string_append_cancel_left (B.verify_sound s _ _ hv))
    simp [handleConnectionVerdict, hv]

/-- Concrete witness instance of the bcrypt contract. -/
def Binst : BcryptModel where
  Tag := Nat × String
  gen := fun s x => (s, x)
  verify := fun t y => decide (t.2 = y)
  verify_gen := by intro s x; simp
  verify_sound := by
    intro s x y h
    simpa using h

/-- Witness for C7 at concrete passcodes and nonces. -/
theorem handleConnection_auth_binding_witness :
    handleConnectionVerdict Binst (Binst.gen 0 (passcode ++ "ab")) "ab" =
      "SUCCESS\n" ∧
    ("xx" : String) ≠ passcode ∧
    handleConnectionVerdict Binst (Binst.gen 0 ("xx" ++ "ab")) "ab" = "FAIL\n" ∧
    ("cd" : String) ≠ "ab" ∧
    handleConnectionVerdict Binst (Binst.gen 0 (passcode ++ "cd")) "ab" =
      "FAIL\n" :=
  ⟨((handleConnection_auth_binding Binst).1 _ "ab").mpr
      ((handleConnection_auth_binding Binst).2.1 0 passcode "ab"),
    by decide,
    (handleConnection_auth_binding Binst).2.2.1 0 "xx" "ab" (by decide),
    by decide,
    (handleConnection_auth_binding Binst).2.2.2 0 "cd" "ab" (by decide)⟩

/-- Outcome of one admission attempt at the exclusivity gate; a rejected
attempt records how many bytes were read from the new stream (zero). -/
inductive AdmitOutcome where
  | admitted
  | connLocked (bytesRead : Nat)
deriving DecidableEq

/-- Modelled from the spec: the accept transition of the exclusivity gate
(§4.7).  The netconn revision holding the gate is missing from the source
snapshot — src/pkg/netconn/tcp.go is an earlier revision whose
StartTCPServer and ConnectTCP signatures do not match their callers in
main.go — so the gate is modelled from the wording of the spec: if free,
transition to busy and admit; if busy, reject the new stream with
ConnectionLocked before any bytes are read. -/
def tryAdmit (busy : Bool) : Bool × AdmitOutcome :=
  if busy then (true, .connLocked 0) else (true, .admitted)

/-- Modelled from the spec: the release transition — on any exit from an
admitted transfer (success or error) the gate returns to free. -/
def releaseGate (_busy : Bool) : Bool := false

/-- Events applied to the gate, in the serialization order imposed by its
mutex. -/
inductive GateEvent where
  | tryAdmitEv
  | releaseEv
deriving DecidableEq

/-- Observation trace of the serialized gate: for each admission attempt,
the state it saw and the outcome it got. -/
def gateObs : Bool → List GateEvent → List (Bool × AdmitOutcome)
  | _, [] => []
  | b, .tryAdmitEv :: evs => (b, (tryAdmit b).2) :: gateObs (tryAdmit b).1 evs
  | b, .releaseEv :: evs => gateObs (releaseGate b) evs

/-- C6: along every serialized event sequence, each admission attempt made
while the gate is busy is rejected with ConnectionLocked having read zero
bytes from the new stream, each attempt made while it is free is admitted,
and release always returns the gate to free. -/
theorem gate_exclusivity (b : Bool) (evs : List GateEvent) :
    (∀ pre o, (pre, o) ∈ gateObs b evs →
      (pre = true → o = .connLocked 0) ∧ (pre = false → o = .admitted)) ∧
    (∀ st : Bool, releaseGate st = false) := by
  refine ⟨?_, fun _ => rfl⟩
  induction evs generalizing b with
  | nil =>
      intro pre o h
      simp [gateObs] at h
  | cons ev evs ih =>
      intro pre o h
      cases ev with
      | tryAdmitEv =>
          rw [gateObs] at h
          rcases List.mem_cons.mp h with hh | hh
          · cases b with
            | true =>
                simp [tryAdmit] at hh
                simp [hh.1, hh.2]
            | false =>
                simp [tryAdmit] at hh
                simp [hh.1, hh.2]
          · exact ih _ pre o hh
      | releaseEv =>
          rw [gateObs] at h
          exact ih _ pre o h

/-- Witness for C6: a two-attempt trace from the free state — the first
attempt is admitted, the second sees the busy gate and is rejected with
zero bytes read. -/
theorem gate_exclusivity_witness :
    gateObs false [GateEvent.tryAdmitEv, GateEvent.tryAdmitEv] =
      [(false, .admitted), (true, .connLocked 0)] ∧
    (true = true → AdmitOutcome.connLocked 0 = .connLocked 0) :=
  ⟨by decide,
    ((gate_exclusivity false [GateEvent.tryAdmitEv, GateEvent.tryAdmitEv]).1
      true (.connLocked 0) (by decide)).1⟩
